import Mathlib

/-!
Shallow embedding of the `runtime-diff` differential test runner
(`src/bin/runtime-diff.rs`): manifest parsing (`load_test_file`), per-line
classification performed by the worker threads, the breadcrumb trail with its
eviction loop, and the round-based comparator loop of `run_test_commands`,
together with the exit-code structure of `main`.

Rust strings are embedded as `List Char`; the comparator loop, which in the
source is a `while` loop draining `mpsc` channels with blocking `recv`, is
embedded as a fuel-indexed recursion over the per-process lists of channel
events (blocking `recv` makes the sequence of events each round observes a
pure function of the per-process event streams, independent of real-time
interleaving).
-/

namespace RuntimeDiff

/-- Rust `String`, embedded as its character sequence. -/
abbrev Str := List Char

/-- Rust `char::is_whitespace` (the Unicode `White_Space` property), used by
`str::trim`. -/
def isRustWhitespace (c : Char) : Bool :=
  c = ' ' || c = '\t' || c = '\n' || c = '\x0b' || c = '\x0c' || c = '\r' ||
  c = '\u0085' || c = ' ' || c = ' ' ||
  (' ' ≤ c && c ≤ ' ') ||
  c = ' ' || c = ' ' || c = ' ' || c = ' ' || c = '　'

/-- Rust `str::trim_start`. -/
def trimStart (s : Str) : Str := s.dropWhile isRustWhitespace

/-- Rust `str::trim_end`. -/
def trimEnd (s : Str) : Str := (s.reverse.dropWhile isRustWhitespace).reverse

/-- Rust `str::trim` (strip leading and trailing whitespace). -/
def trimStr (s : Str) : Str := trimEnd (trimStart s)

/-- Rust `str::starts_with(pat)` for a string pattern. -/
def strStartsWith (s pat : Str) : Bool := pat.isPrefixOf s

/-- Rust `str::ends_with(c)` for a `char` pattern. -/
def strEndsWithChar (s : Str) (c : Char) : Bool :=
  match s.getLast? with
  | some x => x = c
  | none => false

/-- Rust `str::trim_end_matches(c)`: repeatedly remove the trailing `char`. -/
def trimEndMatchesChar (s : Str) (c : Char) : Str :=
  (s.reverse.dropWhile (fun x => x = c)).reverse

/-- Rust `str::split_once(c)`: split at the first occurrence of `c`,
returning the parts before and after it (neither containing `c` itself),
or `none` when `c` does not occur. -/
def splitOnce (c : Char) : Str → Option (Str × Str)
  | [] => none
  | x :: xs =>
    if x = c then some ([], xs)
    else (splitOnce c xs).map (fun p => (x :: p.1, p.2))

/-! ## Manifest loading (`load_test_file`, lines 17-57 of the source)

The source iterates `content.lines()`; the embedding takes the list of lines
directly. The loop state is the current section name (initially `""`). -/

/-- The body of `load_test_file`'s line loop: skip blank and `#` lines, a
trimmed line ending in `':'` switches the current section (named by stripping
all trailing colons), a `build` line is pushed verbatim (trimmed), a `test`
line is `split_once(':')` into trimmed name and command (dropped silently when
it has no `':'`), lines of unknown sections are discarded. -/
def loadLines (sec : Str) : List Str → List Str × List (Str × Str)
  | [] => ([], [])
  | line :: rest =>
    let t := trimStr line
    if t.isEmpty || strStartsWith t ['#'] then
      loadLines sec rest
    else if strEndsWithChar t ':' then
      loadLines (trimEndMatchesChar t ':') rest
    else
      let r := loadLines sec rest
      if sec = "build".data then (t :: r.1, r.2)
      else if sec = "test".data then
        match splitOnce ':' t with
        | some kc => (r.1, (trimStr kc.1, trimStr kc.2) :: r.2)
        | none => r
      else r

/-- `load_test_file` on the (already line-split) file content: returns
`(build_commands, test_commands)`. The initial section is the empty string. -/
def loadTestFile (lines : List Str) : List Str × List (Str × Str) :=
  loadLines [] lines

/-! ## Worker-side line classification (lines 93-107 of the source) -/

/-- The `CommandData` enum sent over each worker's channel. -/
inductive CommandData where
  | Check (msg : Str)
  | Breadcumb (msg : Str)
deriving DecidableEq, Repr

/-- What the worker does with one line of subprocess output: send an event on
the channel, or print the line to the console. -/
inductive LineAction where
  | send (d : CommandData)
  | passthrough (out : Str)
deriving DecidableEq, Repr

/-- The breadcrumb marker, `"BREADCUMB:"`. -/
def bcMarker : Str := "BREADCUMB:".data

/-- The checkpoint marker, `"RUNTIME CHECK:"`. -/
def ckMarker : Str := "RUNTIME CHECK:".data

/-- Per-line worker logic: trim the line, then classify by prefix —
`"BREADCUMB:"` lines are sent as `Breadcumb` events, `"RUNTIME CHECK:"` lines
as `Check` events, anything else is printed (the trimmed text). -/
def processLine (line : Str) : LineAction :=
  let l := trimStr line
  if strStartsWith l bcMarker then .send (.Breadcumb l)
  else if strStartsWith l ckMarker then .send (.Check l)
  else .passthrough l

/-! ## Breadcrumb trails (lines 133, 148-160 of the source)

`breadcumbs[i]` is a `VecDeque<String>`; on every received message the loop
first pops from the front while the length exceeds `max_breadcumbs`, then
pushes the message at the back. -/

/-- The eviction loop: `while trail.len() > max_breadcumbs { pop_front }`. -/
def trailEvict (maxB : Nat) : List Str → List Str
  | [] => []
  | x :: xs => if xs.length + 1 > maxB then trailEvict maxB xs else x :: xs

/-- Handling of one received message's trail update: evict, then push back. -/
def trailRecv (maxB : Nat) (t : List Str) (m : Str) : List Str :=
  trailEvict maxB t ++ [m]

/-- Trail after receiving a sequence of messages in order. -/
def trailPushAll (maxB : Nat) (t : List Str) (msgs : List Str) : List Str :=
  msgs.foldl (trailRecv maxB) t

/-! ## The comparator round (lines 137-191 of the source) -/

/-- The checkpoint subsequence of an event stream (payloads of `Check`
events, in order). -/
def checksOf : List CommandData → List Str
  | [] => []
  | .Check m :: r => m :: checksOf r
  | .Breadcumb _ :: r => checksOf r

/-- The inner `loop` draining one process's channel for one round: receive
until the first `Check` (recorded and consumed) or channel closure (end of the
stream). Returns the recorded checkpoint (if any), the remaining stream, and
the payloads of all consumed events in order (each of which the source pushes
into the trail). -/
def drain : List CommandData → Option Str × List CommandData × List Str
  | [] => (none, [], [])
  | .Check m :: r => (some m, r, [m])
  | .Breadcumb m :: r =>
    let d := drain r
    (d.1, d.2.1, m :: d.2.2)

/-- One round's handling of one process: drain its channel, update its trail
with every consumed payload, and record its checkpoint for this round. -/
def roundOne (maxB : Nat) (p : List CommandData × List Str) :
    (List CommandData × List Str) × Option Str :=
  let d := drain p.1
  ((d.2.1, trailPushAll maxB p.2 d.2.2), d.1)

/-- The mismatch test of lines 171-178: at least one `Some` entry, and more
than one distinct value among the `Some` entries (the source collects the
values into a `HashSet` and compares its size with 1). -/
def mismatch (lastChecks : List (Option Str)) : Bool :=
  lastChecks.any Option.isSome &&
    decide ((lastChecks.filterMap id).dedup.length > 1)

/-- Total number of undelivered channel events, the comparator's termination
measure. -/
def totalEvents (st : List (List CommandData × List Str)) : Nat :=
  (st.map (fun p => p.1.length)).sum

/-- Outcome of `run_test_commands`'s comparison loop: a mismatch detected in
a given round (1-based) with the trails as printed, or successful
completion. -/
inductive RunResult where
  | mismatchAt (round : Nat) (trails : List (List Str))
  | success
deriving DecidableEq, Repr

/-- The round in which a mismatch was declared, if any. -/
def RunResult.roundOf : RunResult → Option Nat
  | .mismatchAt r _ => some r
  | .success => none

/-- The `while still_running` loop, fuel-indexed (every iteration that
continues consumes at least one channel event, so fuel `totalEvents st + 1`
suffices; see `runLoopF_isSome`). Each iteration drains every process once,
declares a mismatch when the recorded checkpoints disagree, and otherwise
continues while any event was received (`still_running`). `none` is returned
only on fuel exhaustion, which `runTest` avoids. -/
def runLoopF (maxB : Nat) : Nat → List (List CommandData × List Str) → Nat →
    Option RunResult
  | 0, _, _ => none
  | fuel + 1, st, roundIdx =>
    let results := st.map (roundOne maxB)
    let newSt := results.map Prod.fst
    let lastChecks := results.map Prod.snd
    let stillRunning := st.any (fun p => !p.1.isEmpty)
    if mismatch lastChecks then
      some (.mismatchAt roundIdx (newSt.map Prod.snd))
    else if stillRunning then
      runLoopF maxB fuel newSt (roundIdx + 1)
    else
      some .success

/-- Initial comparator state: every process paired with an empty trail
(`vec![VecDeque::new(); handles.len()]`). -/
def initState (procs : List (List CommandData)) : List (List CommandData × List Str) :=
  procs.map (fun evs => (evs, []))

/-- `run_test_commands`' comparison phase, applied to the per-process event
streams, starting with empty trails and round 1. -/
def runTest (maxB : Nat) (procs : List (List CommandData)) : RunResult :=
  (runLoopF maxB (totalEvents (initState procs) + 1) (initState procs) 1).getD .success

/-! ## The round as the source writes it: an indexed pass mutating the
`breadcumbs` and `last_checks` arrays in place (lines 142-169). -/

/-- The mutable state of one comparator round: the undelivered channel
contents, the `breadcumbs` trails, and the `last_checks` array. -/
structure RoundState where
  evss : List (List CommandData)
  trails : List (List Str)
  lastChecks : List (Option Str)
deriving DecidableEq, Repr

/-- One iteration of `for (i, receiver) in receivers.iter().enumerate()`:
drain channel `i`, writing only `breadcumbs[i]` and `last_checks[i]`. -/
def drainStep (maxB : Nat) (st : RoundState) (i : Nat) : RoundState :=
  let d := drain (st.evss.getD i [])
  ⟨st.evss.set i d.2.1,
   st.trails.set i (trailPushAll maxB (st.trails.getD i []) d.2.2),
   st.lastChecks.set i d.1⟩

/-! ## Exit codes (`main`, lines 203-230, and the worker fatal paths) -/

/-- Outcome of one worker thread's interaction with its subprocess: whether
the spawn succeeded, whether every line read from its stdout succeeded, and
whether the subprocess exited with status zero. -/
structure WorkerOutcome where
  spawnOk : Bool
  readOk : Bool
  exitZero : Bool
deriving DecidableEq, Repr

/-- A worker hits one of its `std::process::exit(1)` paths (lines 109-125):
spawn failure, a stdout read error, or a non-zero subprocess exit status. -/
def workerFailed (w : WorkerOutcome) : Bool :=
  !w.spawnOk || !w.readOk || !w.exitZero

/-- Exit code of the test phase: `1` when any worker hits a fatal path or the
comparator declares a mismatch (line 189), `0` otherwise (fall-through to
`"All tests completed successfully"`). -/
def runTestExitCode (maxB : Nat) (workers : List WorkerOutcome)
    (procs : List (List CommandData)) : Nat :=
  if workers.any workerFailed then 1
  else
    match runTest maxB procs with
    | .mismatchAt _ _ => 1
    | .success => 0

/-- Exit code of `main`: `1` on manifest load failure (line 210), `1` on
build failure (line 224), otherwise the test phase's exit code. -/
def mainExitCode (manifestOk buildOk : Bool) (maxB : Nat)
    (workers : List WorkerOutcome) (procs : List (List CommandData)) : Nat :=
  if !manifestOk then 1
  else if !buildOk then 1
  else runTestExitCode maxB workers procs

/-! ## Helper lemmas: draining a channel -/

theorem roundOne_fst_fst (maxB : Nat) (p : List CommandData × List Str) :
    (roundOne maxB p).1.1 = (drain p.1).2.1 := rfl

theorem roundOne_fst_snd (maxB : Nat) (p : List CommandData × List Str) :
    (roundOne maxB p).1.2 = trailPushAll maxB p.2 (drain p.1).2.2 := rfl

theorem roundOne_snd (maxB : Nat) (p : List CommandData × List Str) :
    (roundOne maxB p).2 = (drain p.1).1 := rfl

theorem drain_fst (evs : List CommandData) : (drain evs).1 = (checksOf evs).head? := by
  induction evs with
  | nil => rfl
  | cons e r ih => cases e <;> simp [drain, checksOf, ih]

theorem checksOf_drain_rem (evs : List CommandData) :
    checksOf (drain evs).2.1 = (checksOf evs).tail := by
  induction evs with
  | nil => rfl
  | cons e r ih => cases e <;> simp [drain, checksOf, ih]

theorem drain_rem_length_le (evs : List CommandData) :
    (drain evs).2.1.length ≤ evs.length := by
  induction evs with
  | nil => simp [drain]
  | cons e r ih => cases e <;> simp [drain] <;> omega

theorem drain_rem_length_lt (evs : List CommandData) (h : evs ≠ []) :
    (drain evs).2.1.length < evs.length := by
  cases evs with
  | nil => exact absurd rfl h
  | cons e r =>
    have hle := drain_rem_length_le r
    cases e <;> simp [drain] <;> omega

theorem drain_rem_of_checksOf_nil (evs : List CommandData) (h : checksOf evs = []) :
    (drain evs).2.1 = [] := by
  induction evs with
  | nil => rfl
  | cons e r ih =>
    cases e with
    | Check m => simp [checksOf] at h
    | Breadcumb m => simpa [drain] using ih (by simpa [checksOf] using h)

theorem checksOf_ne_nil (evs : List CommandData) (h : checksOf evs ≠ []) : evs ≠ [] := by
  intro he
  subst he
  exact h rfl

/-! ## Helper lemmas: the mismatch test -/

theorem dedup_length_le_one (m : List Str) (v : Str) (h : ∀ x ∈ m, x = v) :
    m.dedup.length ≤ 1 := by
  induction m with
  | nil => simp
  | cons a t ih =>
    cases t with
    | nil => simp
    | cons b t2 =>
      have hm : a ∈ b :: t2 := by
        rw [h a (by simp), h b (by simp)]
        simp
      rw [List.dedup_cons_of_mem hm]
      exact ih (fun x hx => h x (by simp [hx]))

theorem mismatch_eq_false_of_all_eq (lc : List (Option Str)) (o : Option Str)
    (h : ∀ x ∈ lc, x = o) : mismatch lc = false := by
  unfold mismatch
  cases o with
  | none =>
    have ha : lc.any Option.isSome = false := by
      rw [List.any_eq_false]
      intro x hx
      rw [h x hx]
      simp
    rw [ha, Bool.false_and]
  | some v =>
    have hd : (lc.filterMap id).dedup.length ≤ 1 := by
      apply dedup_length_le_one _ v
      intro x hx
      obtain ⟨y, hy, hxy⟩ := List.mem_filterMap.mp hx
      have := h y hy
      simp only [id] at hxy
      rw [this] at hxy
      exact (Option.some_inj.mp hxy).symm
    rw [decide_eq_false (by omega), Bool.and_false]

theorem mismatch_pair_same (a : Str) : mismatch [some a, some a] = false := by
  apply mismatch_eq_false_of_all_eq _ (some a)
  intro x hx
  rcases List.mem_cons.mp hx with h1 | h1
  · exact h1
  · simpa using h1

theorem mismatch_pair_ne (a b : Str) (h : a ≠ b) : mismatch [some a, some b] = true := by
  unfold mismatch
  have h1 : (([some a, some b] : List (Option Str)).filterMap id) = [a, b] := by simp
  have hd : ([a, b] : List Str).dedup = [a, b] := by
    rw [List.dedup_cons_of_not_mem (by simp [h]),
      List.dedup_cons_of_not_mem (by simp), List.dedup_nil]
  rw [h1, hd]
  simp

/-! ## Helper lemmas: `insertIdx` (inserting one extra process) -/

theorem filterMap_id_insertIdx_none (i : Nat) (lc : List (Option Str)) :
    (lc.insertIdx i none).filterMap id = lc.filterMap id := by
  induction i generalizing lc with
  | zero => simp
  | succ n ih =>
    cases lc with
    | nil => simp
    | cons x t => cases x <;> simp [List.insertIdx_succ_cons, ih]

theorem any_isSome_insertIdx_none (i : Nat) (lc : List (Option Str)) :
    (lc.insertIdx i none).any Option.isSome = lc.any Option.isSome := by
  induction i generalizing lc with
  | zero => simp
  | succ n ih =>
    cases lc with
    | nil => simp
    | cons x t => simp [List.insertIdx_succ_cons, ih]

theorem mismatch_insertIdx_none (i : Nat) (lc : List (Option Str)) :
    mismatch (lc.insertIdx i none) = mismatch lc := by
  unfold mismatch
  rw [filterMap_id_insertIdx_none, any_isSome_insertIdx_none]

theorem map_insertIdx {α β : Type} (f : α → β) (i : Nat) (a : α) (l : List α) :
    (l.insertIdx i a).map f = (l.map f).insertIdx i (f a) := by
  induction i generalizing l with
  | zero => simp
  | succ n ih =>
    cases l with
    | nil => simp
    | cons x t => simp [List.insertIdx_succ_cons, ih]

theorem any_insertIdx {α : Type} (p : α → Bool) (i : Nat) (a : α) (l : List α)
    (h : i ≤ l.length) : (l.insertIdx i a).any p = (p a || l.any p) := by
  induction i generalizing l with
  | zero => simp
  | succ n ih =>
    cases l with
    | nil => simp at h
    | cons x t =>
      simp only [List.insertIdx_succ_cons, List.any_cons, ih _ (by simpa using h)]
      cases p x <;> cases p a <;> simp

theorem sum_insertIdx (i : Nat) (a : Nat) (l : List Nat) (h : i ≤ l.length) :
    (l.insertIdx i a).sum = a + l.sum := by
  induction i generalizing l with
  | zero => simp
  | succ n ih =>
    cases l with
    | nil => simp at h
    | cons x t =>
      simp only [List.insertIdx_succ_cons, List.sum_cons, ih _ (by simpa using h)]
      omega

/-! ## Helper lemmas: the termination measure -/

theorem totalEvents_cons (p : List CommandData × List Str)
    (st : List (List CommandData × List Str)) :
    totalEvents (p :: st) = p.1.length + totalEvents st := by
  simp [totalEvents]

theorem totalEvents_round_le (maxB : Nat) (st : List (List CommandData × List Str)) :
    totalEvents ((st.map (roundOne maxB)).map Prod.fst) ≤ totalEvents st := by
  induction st with
  | nil => simp [totalEvents]
  | cons p t ih =>
    have hle := drain_rem_length_le p.1
    simp only [List.map_cons, totalEvents_cons, roundOne_fst_fst]
    omega

theorem totalEvents_round_lt (maxB : Nat) (st : List (List CommandData × List Str))
    (h : st.any (fun p => !p.1.isEmpty) = true) :
    totalEvents ((st.map (roundOne maxB)).map Prod.fst) < totalEvents st := by
  induction st with
  | nil => simp at h
  | cons p t ih =>
    simp only [List.map_cons, totalEvents_cons, roundOne_fst_fst]
    by_cases hp : p.1 = []
    · have h2 : (t.any fun q => !q.1.isEmpty) = true := by
        rw [List.any_cons, hp] at h
        simpa using h
      have hlt := ih h2
      have hle := drain_rem_length_le p.1
      omega
    · have hlt := drain_rem_length_lt p.1 hp
      have hle := totalEvents_round_le maxB t
      omega

/-! ## Helper lemmas: fuel adequacy of the comparator loop -/

theorem runLoopF_irrel (maxB : Nat) :
    ∀ f g (st : List (List CommandData × List Str)) k, totalEvents st < f →
      totalEvents st < g → runLoopF maxB f st k = runLoopF maxB g st k := by
  intro f
  induction f with
  | zero => intro g st k hf; omega
  | succ f ih =>
    intro g st k hf hg
    cases g with
    | zero => omega
    | succ g =>
      simp only [runLoopF]
      split_ifs with hm hs
      · rfl
      · have hlt := totalEvents_round_lt maxB st hs
        exact ih g _ _ (by omega) (by omega)
      · rfl

theorem runLoopF_isSome (maxB : Nat) :
    ∀ f (st : List (List CommandData × List Str)) k, totalEvents st < f →
      (runLoopF maxB f st k).isSome = true := by
  intro f
  induction f with
  | zero => intro st k hf; omega
  | succ f ih =>
    intro st k hf
    simp only [runLoopF]
    split_ifs with hm hs
    · rfl
    · have hlt := totalEvents_round_lt maxB st hs
      exact ih _ _ (by omega)
    · rfl

theorem runTest_spec (maxB : Nat) (procs : List (List CommandData)) (fuel : Nat)
    (h : totalEvents (initState procs) < fuel) :
    runLoopF maxB fuel (initState procs) 1 = some (runTest maxB procs) := by
  unfold runTest
  rw [runLoopF_irrel maxB fuel (totalEvents (initState procs) + 1) _ 1 h (by omega)]
  obtain ⟨r, hr⟩ := Option.isSome_iff_exists.mp
    (runLoopF_isSome maxB (totalEvents (initState procs) + 1) (initState procs) 1 (by omega))
  rw [hr]
  rfl

/-! ## Helper lemmas: trimming and markers -/

theorem dropWhile_append_of_forall (p : Char → Bool) (ws l : Str)
    (h : ∀ c ∈ ws, p c = true) : (ws ++ l).dropWhile p = l.dropWhile p := by
  induction ws with
  | nil => rfl
  | cons c cs ih =>
    rw [List.cons_append, List.dropWhile_cons, if_pos (h c (by simp))]
    exact ih (fun x hx => h x (by simp [hx]))

theorem dropWhile_append_left (p : Char → Bool) (l l2 : Str) (h : l.dropWhile p ≠ []) :
    (l ++ l2).dropWhile p = l.dropWhile p ++ l2 := by
  induction l with
  | nil => simp at h
  | cons c cs ih =>
    by_cases hc : p c = true
    · rw [List.dropWhile_cons, if_pos hc] at h
      rw [List.cons_append, List.dropWhile_cons, if_pos hc, List.dropWhile_cons, if_pos hc]
      exact ih h
    · rw [List.cons_append, List.dropWhile_cons, if_neg hc, List.dropWhile_cons, if_neg hc,
        List.cons_append]

theorem trimStart_ws_append (ws l : Str) (h : ∀ c ∈ ws, isRustWhitespace c = true) :
    trimStart (ws ++ l) = trimStart l :=
  dropWhile_append_of_forall _ ws l h

theorem trimEnd_append_ws (l ws : Str) (h : ∀ c ∈ ws, isRustWhitespace c = true) :
    trimEnd (l ++ ws) = trimEnd l := by
  unfold trimEnd
  rw [List.reverse_append,
    dropWhile_append_of_forall _ _ _ (fun c hc => h c (List.mem_reverse.mp hc))]

theorem trimStr_sandwich (ws1 l ws2 : Str)
    (h1 : ∀ c ∈ ws1, isRustWhitespace c = true)
    (h2 : ∀ c ∈ ws2, isRustWhitespace c = true) :
    trimStr (ws1 ++ l ++ ws2) = trimStr l := by
  unfold trimStr
  rw [List.append_assoc, trimStart_ws_append ws1 (l ++ ws2) h1]
  by_cases hnil : trimStart l = []
  · have hall : ∀ c ∈ l, isRustWhitespace c = true := by
      intro c hc
      exact List.dropWhile_eq_nil_iff.mp hnil c hc
    unfold trimStart
    rw [dropWhile_append_of_forall _ _ _ hall, List.dropWhile_eq_nil_iff.mpr h2]
    unfold trimStart at hnil
    rw [hnil]
  · unfold trimStart at hnil ⊢
    rw [dropWhile_append_left _ _ _ hnil]
    exact trimEnd_append_ws _ _ h2

theorem trimStr_startsWith_of (l p : Str)
    (hhead : ∀ c, p.head? = some c → isRustWhitespace c = false)
    (hlast : ∀ c, p.getLast? = some c → isRustWhitespace c = false)
    (h : strStartsWith l p = true) : strStartsWith (trimStr l) p = true := by
  cases p with
  | nil => simp [strStartsWith, List.isPrefixOf_iff_prefix]
  | cons c0 p' =>
    have hc0 : isRustWhitespace c0 = false := hhead c0 rfl
    obtain ⟨r, hr⟩ := List.isPrefixOf_iff_prefix.mp h
    rw [strStartsWith, List.isPrefixOf_iff_prefix]
    rw [← hr]
    unfold trimStr trimStart trimEnd
    rw [List.cons_append, List.dropWhile_cons, if_neg (by simp [hc0])]
    have hrev : (c0 :: (p' ++ r)).reverse = r.reverse ++ (c0 :: p').reverse := by
      rw [← List.cons_append, List.reverse_append]
    rw [hrev, List.dropWhile_append]
    by_cases he : ((r.reverse.dropWhile isRustWhitespace).isEmpty : Bool) = true
    · rw [if_pos he]
      rcases List.eq_nil_or_concat (c0 :: p') with hc | ⟨L, b, hcb⟩
      · simp at hc
      · have hb : isRustWhitespace b = false := by
          apply hlast
          rw [hcb, List.concat_eq_append, List.getLast?_append]
          rfl
        rw [hcb, List.concat_eq_append, List.reverse_append, List.reverse_singleton,
          List.singleton_append, List.dropWhile_cons, if_neg (by simp [hb]),
          List.reverse_cons, List.reverse_reverse]
    · rw [if_neg he, List.reverse_append, List.reverse_reverse]
      exact List.prefix_append _ _

theorem not_bc_of_ck (s : Str) (h : strStartsWith s ckMarker = true) :
    strStartsWith s bcMarker = false := by
  by_contra hb
  rw [Bool.not_eq_false] at hb
  have h1 := List.isPrefixOf_iff_prefix.mp h
  have h2 := List.isPrefixOf_iff_prefix.mp hb
  rcases List.prefix_or_prefix_of_prefix h2 h1 with hc | hc
  · exact absurd (List.isPrefixOf_iff_prefix.mpr hc) (by decide)
  · exact absurd (List.isPrefixOf_iff_prefix.mpr hc) (by decide)

/-! ## Helper lemmas: the trail's exact retention behavior -/

theorem trailEvict_of_length_le (maxB : Nat) (t : List Str) (h : t.length ≤ maxB) :
    trailEvict maxB t = t := by
  cases t with
  | nil => rfl
  | cons x xs =>
    simp only [List.length_cons] at h
    unfold trailEvict
    rw [if_neg (by omega)]

theorem trailEvict_of_length_eq (maxB : Nat) (t : List Str) (h : t.length = maxB + 1) :
    trailEvict maxB t = t.tail := by
  cases t with
  | nil => simp at h
  | cons x xs =>
    simp only [List.length_cons] at h
    unfold trailEvict
    rw [if_pos (by omega)]
    exact trailEvict_of_length_le maxB xs (by omega)

theorem trailPushAll_closed_form (maxB : Nat) :
    ∀ (msgs t : List Str), t.length ≤ maxB + 1 →
      trailPushAll maxB t msgs = (t ++ msgs).drop (t.length + msgs.length - (maxB + 1)) := by
  intro msgs
  induction msgs with
  | nil =>
    intro t ht
    simp only [trailPushAll, List.foldl_nil, List.append_nil, List.length_nil, Nat.add_zero]
    rw [Nat.sub_eq_zero_of_le ht, List.drop_zero]
  | cons m ms ih =>
    intro t ht
    have hstep : trailPushAll maxB t (m :: ms) = trailPushAll maxB (trailRecv maxB t m) ms := rfl
    rw [hstep]
    by_cases hle : t.length ≤ maxB
    · have hr : trailRecv maxB t m = t ++ [m] := by
        unfold trailRecv
        rw [trailEvict_of_length_le maxB t hle]
      have hlt : (t ++ [m]).length ≤ maxB + 1 := by
        simp only [List.length_append, List.length_cons, List.length_nil]
        omega
      rw [hr, ih (t ++ [m]) hlt]
      have harg : (t ++ [m]).length + ms.length - (maxB + 1)
          = t.length + (m :: ms).length - (maxB + 1) := by
        simp only [List.length_append, List.length_cons, List.length_nil]
        omega
      rw [harg, List.append_assoc, List.singleton_append]
    · have hlen : t.length = maxB + 1 := by omega
      cases t with
      | nil => simp at hlen
      | cons x xs =>
        have hxs : xs.length = maxB := by simpa using hlen
        have hr : trailRecv maxB (x :: xs) m = xs ++ [m] := by
          unfold trailRecv
          rw [trailEvict_of_length_eq maxB (x :: xs) hlen, List.tail_cons]
        have hlt : (xs ++ [m]).length ≤ maxB + 1 := by
          simp only [List.length_append, List.length_cons, List.length_nil]
          omega
        rw [hr, ih (xs ++ [m]) hlt]
        have e1 : (xs ++ [m]).length + ms.length - (maxB + 1) = ms.length := by
          simp only [List.length_append, List.length_cons, List.length_nil, hxs]
          omega
        have e2 : (x :: xs).length + (m :: ms).length - (maxB + 1) = ms.length + 1 := by
          simp only [List.length_cons, hxs]
          omega
        rw [e1, e2, List.append_assoc, List.singleton_append, List.cons_append,
          List.drop_succ_cons]

/-! ## Claim C4 -/

/-- C4, counterexample: with capacity `max_breadcumbs = 1`, pushing two lines
leaves the trail at length 2 — the source evicts before pushing, never after,
so the bound `len ≤ max_breadcumbs` claimed by the spec fails. -/
theorem c4_counterexample : ¬(trailPushAll 1 [] [['a'], ['b']]).length ≤ 1 := by decide

/-- C4, amended: for any sequence of pushes starting from the empty trail the
length never exceeds `max_breadcumbs + 1`, and the retained elements are
exactly the most recent `max_breadcumbs + 1` pushed lines in arrival order
(the oldest entries having been evicted first). -/
theorem c4_trail_bound_amended (maxB : Nat) (msgs : List Str) :
    trailPushAll maxB [] msgs = msgs.drop (msgs.length - (maxB + 1)) ∧
    (trailPushAll maxB [] msgs).length ≤ maxB + 1 := by
  have h := trailPushAll_closed_form maxB msgs [] (by simp)
  simp only [List.nil_append, List.length_nil, Nat.zero_add] at h
  refine ⟨h, ?_⟩
  rw [h, List.length_drop]
  omega

/-! ## Claim C3 -/

/-- C3: a round is a mismatch iff at least one process recorded a checkpoint
this round and the number of distinct recorded texts exceeds one; `None`
entries are ignored by the comparison (prepending one never changes the
verdict). -/
theorem c3_mismatch_characterization (lastChecks : List (Option Str)) :
    (mismatch lastChecks = true ↔
      (∃ v, some v ∈ lastChecks) ∧ 1 < (lastChecks.filterMap id).toFinset.card) ∧
    mismatch (none :: lastChecks) = mismatch lastChecks := by
  constructor
  · unfold mismatch
    rw [Bool.and_eq_true, List.any_eq_true, List.card_toFinset, decide_eq_true_eq]
    constructor
    · rintro ⟨⟨x, hx, hs⟩, h2⟩
      obtain ⟨v, rfl⟩ := Option.isSome_iff_exists.mp hs
      exact ⟨⟨v, hx⟩, h2⟩
    · rintro ⟨⟨v, hv⟩, h2⟩
      exact ⟨⟨some v, hv, rfl⟩, h2⟩
  · have h := mismatch_insertIdx_none 0 lastChecks
    rwa [List.insertIdx_zero] at h

/-! ## Claim C9 -/

/-- C9: lines are whitespace-trimmed before classification and storage —
surrounding a line with whitespace never changes how it is handled (so a line
with leading whitespace before a marker is still classified as that marker),
and two checkpoint lines that differ only in surrounding whitespace carry the
same stored text, which can never produce a mismatch on its own. -/
theorem c9_trim_before_classification (ws1 ws2 line m : Str)
    (h1 : ∀ c ∈ ws1, isRustWhitespace c = true)
    (h2 : ∀ c ∈ ws2, isRustWhitespace c = true) :
    processLine (ws1 ++ line ++ ws2) = processLine line ∧
    (processLine line = .send (.Check m) →
      processLine (ws1 ++ line ++ ws2) = .send (.Check m) ∧
      mismatch [some m, some m] = false) := by
  have ht := trimStr_sandwich ws1 line ws2 h1 h2
  have hpl : processLine (ws1 ++ line ++ ws2) = processLine line := by
    unfold processLine
    rw [ht]
  exact ⟨hpl, fun hc => ⟨hpl.trans hc, mismatch_pair_same m⟩⟩

/-- C9 witness: a checkpoint line with leading and trailing whitespace is
classified identically to its trimmed form. -/
theorem c9_witness :
    (∀ c ∈ ([' ', ' '] : Str), isRustWhitespace c = true) ∧
    (∀ c ∈ ([' '] : Str), isRustWhitespace c = true) ∧
    (processLine ([' ', ' '] ++ "RUNTIME CHECK: 1".data ++ [' ']) =
      processLine "RUNTIME CHECK: 1".data ∧
     (processLine "RUNTIME CHECK: 1".data = .send (.Check "RUNTIME CHECK: 1".data) →
      processLine ([' ', ' '] ++ "RUNTIME CHECK: 1".data ++ [' ']) =
        .send (.Check "RUNTIME CHECK: 1".data) ∧
      mismatch [some "RUNTIME CHECK: 1".data, some "RUNTIME CHECK: 1".data] = false)) :=
  ⟨by decide, by decide,
    c9_trim_before_classification [' ', ' '] [' '] "RUNTIME CHECK: 1".data
      "RUNTIME CHECK: 1".data (by decide) (by decide)⟩

/-! ## Claim C10 -/

/-- C10: draining the channel of process `i` within a round mutates only
process `i`'s trail, its slot of the round's checkpoint array, and its own
channel: every other index of the three arrays is unchanged. -/
theorem c10_drain_frame (maxB : Nat) (st : RoundState) (i j : Nat) (h : j ≠ i) :
    (drainStep maxB st i).trails[j]? = st.trails[j]? ∧
    (drainStep maxB st i).lastChecks[j]? = st.lastChecks[j]? ∧
    (drainStep maxB st i).evss[j]? = st.evss[j]? :=
  ⟨List.getElem?_set_ne (fun he => h he.symm),
   List.getElem?_set_ne (fun he => h he.symm),
   List.getElem?_set_ne (fun he => h he.symm)⟩

/-- C10 witness: draining process 0 leaves process 1's trail, checkpoint slot
and channel untouched. -/
theorem c10_drain_frame_witness :
    (1 : Nat) ≠ 0 ∧
    ((drainStep 32 ⟨[[CommandData.Check ['a']], [CommandData.Check ['b']]],
        [[], []], [none, none]⟩ 0).trails[1]? = [([] : List Str), []][1]? ∧
     (drainStep 32 ⟨[[CommandData.Check ['a']], [CommandData.Check ['b']]],
        [[], []], [none, none]⟩ 0).lastChecks[1]? = [(none : Option Str), none][1]? ∧
     (drainStep 32 ⟨[[CommandData.Check ['a']], [CommandData.Check ['b']]],
        [[], []], [none, none]⟩ 0).evss[1]? = [[CommandData.Check ['a']],
        [CommandData.Check ['b']]][1]?) :=
  ⟨by decide,
   c10_drain_frame 32 ⟨[[CommandData.Check ['a']], [CommandData.Check ['b']]],
     [[], []], [none, none]⟩ 0 1 (by decide)⟩

/-! ## Claim C6 -/

/-- C6, counterexample: a plain output line is not passed through unmodified —
the source prints its whitespace-trimmed form, so `"  hello  "` is printed as
`"hello"`. -/
theorem c6_counterexample :
    processLine "  hello  ".data = LineAction.passthrough "hello".data ∧
    "hello".data ≠ "  hello  ".data := ⟨by decide, by decide⟩

/-- C6, amended: classification is by prefix of the whitespace-trimmed line —
a line beginning with `"BREADCUMB:"` becomes a `Breadcumb` event and one
beginning with `"RUNTIME CHECK:"` a `Check` event (also when only the trimmed
line carries the prefix), any other line is printed in trimmed form, and only
marker lines ever become channel events, so plain lines never reach the
comparison or a trail. -/
theorem c6_line_classification (line : Str) :
    (strStartsWith line bcMarker = true →
      processLine line = .send (.Breadcumb (trimStr line))) ∧
    (strStartsWith line ckMarker = true →
      processLine line = .send (.Check (trimStr line))) ∧
    (strStartsWith (trimStr line) bcMarker = false →
      strStartsWith (trimStr line) ckMarker = false →
      processLine line = .passthrough (trimStr line)) ∧
    (∀ d, processLine line = .send d →
      strStartsWith (trimStr line) bcMarker = true ∨
      strStartsWith (trimStr line) ckMarker = true) := by
  have hbc_head : ∀ c, bcMarker.head? = some c → isRustWhitespace c = false := by
    intro c hc
    have he : bcMarker.head? = some 'B' := by decide
    rw [he] at hc
    cases hc
    decide
  have hbc_last : ∀ c, bcMarker.getLast? = some c → isRustWhitespace c = false := by
    intro c hc
    have he : bcMarker.getLast? = some ':' := by decide
    rw [he] at hc
    cases hc
    decide
  have hck_head : ∀ c, ckMarker.head? = some c → isRustWhitespace c = false := by
    intro c hc
    have he : ckMarker.head? = some 'R' := by decide
    rw [he] at hc
    cases hc
    decide
  have hck_last : ∀ c, ckMarker.getLast? = some c → isRustWhitespace c = false := by
    intro c hc
    have he : ckMarker.getLast? = some ':' := by decide
    rw [he] at hc
    cases hc
    decide
  refine ⟨?_, ?_, ?_, ?_⟩
  · intro h
    have ht := trimStr_startsWith_of line bcMarker hbc_head hbc_last h
    simp [processLine, ht]
  · intro h
    have ht := trimStr_startsWith_of line ckMarker hck_head hck_last h
    have hnb := not_bc_of_ck _ ht
    simp [processLine, ht, hnb]
  · intro h1 h2
    simp [processLine, h1, h2]
  · intro d hd
    by_cases hb : strStartsWith (trimStr line) bcMarker = true
    · exact Or.inl hb
    · by_cases hk : strStartsWith (trimStr line) ckMarker = true
      · exact Or.inr hk
      · rw [Bool.not_eq_true] at hb hk
        simp [processLine, hb, hk] at hd

/-- C6 witness: a line literally beginning with the breadcrumb marker is sent
as a `Breadcumb` event. -/
theorem c6_witness :
    strStartsWith "BREADCUMB: a".data bcMarker = true ∧
    processLine "BREADCUMB: a".data = .send (.Breadcumb (trimStr "BREADCUMB: a".data)) :=
  ⟨by decide, (c6_line_classification "BREADCUMB: a".data).1 (by decide)⟩

/-! ## Claim C7 -/

/-- C7: the program exits `0` exactly when the manifest loads, the build
succeeds, no worker hits a fatal spawn/read/exit-status path, and the
comparator finishes without a mismatch; in every other case the exit code is
`1` (the only two possible codes). -/
theorem c7_exit_codes (manifestOk buildOk : Bool) (maxB : Nat)
    (workers : List WorkerOutcome) (procs : List (List CommandData)) :
    (mainExitCode manifestOk buildOk maxB workers procs = 0 ↔
      manifestOk = true ∧ buildOk = true ∧
      (∀ w ∈ workers, workerFailed w = false) ∧
      runTest maxB procs = .success) ∧
    (mainExitCode manifestOk buildOk maxB workers procs = 0 ∨
     mainExitCode manifestOk buildOk maxB workers procs = 1) := by
  constructor
  · cases manifestOk with
    | false => simp [mainExitCode]
    | true =>
      cases buildOk with
      | false => simp [mainExitCode]
      | true =>
        show runTestExitCode maxB workers procs = 0 ↔ _
        unfold runTestExitCode
        by_cases hw : workers.any workerFailed = true
        · rw [if_pos hw]
          obtain ⟨w, hmem, hfw⟩ := List.any_eq_true.mp hw
          constructor
          · intro h
            exact absurd h (by decide)
          · rintro ⟨-, -, hall, -⟩
            rw [hall w hmem] at hfw
            exact absurd hfw (by decide)
        · rw [if_neg hw]
          have hall : ∀ w ∈ workers, workerFailed w = false := by
            intro w hmem
            rw [← Bool.not_eq_true]
            intro hc
            exact hw (List.any_eq_true.mpr ⟨w, hmem, hc⟩)
          cases hr : runTest maxB procs with
          | mismatchAt r t =>
            constructor
            · intro h
              exact absurd h Nat.one_ne_zero
            · rintro ⟨-, -, -, h4⟩
              cases h4
          | success =>
            constructor
            · intro _
              exact ⟨rfl, rfl, hall, rfl⟩
            · intro _
              rfl
  · unfold mainExitCode runTestExitCode
    split_ifs
    · right
      rfl
    · right
      rfl
    · right
      rfl
    · cases runTest maxB procs with
      | mismatchAt r t =>
        right
        rfl
      | success =>
        left
        rfl

/-! ## Claim C8 -/

/-- C8, counterexample: inside the `test` section the line `"a: echo hi:"`
contains a `':'`, yet the manifest yields no test entry for it — because the
line ends with `':'` it is taken as a section header instead. -/
theorem c8_counterexample :
    loadTestFile ["test:".data, "a: echo hi:".data] = ([], []) ∧
    splitOnce ':' (trimStr "a: echo hi:".data) = some ("a".data, " echo hi:".data) :=
  ⟨by decide, by decide⟩

/-- C8, amended: any non-empty non-comment line whose trimmed form ends in
`':'` — identifier or not — opens a section named by the line with all
trailing colons stripped; inside the `test` section a non-empty non-comment
line that does not end in `':'` and contains a `':'` yields exactly one test
entry (trimmed text before the first `':'` is the name, the trimmed remainder
the command), and such a line without any `':'` is silently dropped. -/
theorem c8_manifest_parsing_amended (sec line : Str) (rest : List Str)
    (hne : trimStr line ≠ [])
    (hnc : strStartsWith (trimStr line) ['#'] = false) :
    (strEndsWithChar (trimStr line) ':' = true →
      loadLines sec (line :: rest) =
        loadLines (trimEndMatchesChar (trimStr line) ':') rest) ∧
    (∀ k c, strEndsWithChar (trimStr line) ':' = false →
      splitOnce ':' (trimStr line) = some (k, c) →
      loadLines "test".data (line :: rest) =
        ((loadLines "test".data rest).1,
         (trimStr k, trimStr c) :: (loadLines "test".data rest).2)) ∧
    (strEndsWithChar (trimStr line) ':' = false →
      splitOnce ':' (trimStr line) = none →
      loadLines "test".data (line :: rest) = loadLines "test".data rest) := by
  have hempty : (trimStr line).isEmpty = false := by
    cases hcase : trimStr line with
    | nil => exact absurd hcase hne
    | cons a b => rfl
  have hA : ¬(((trimStr line).isEmpty || strStartsWith (trimStr line) ['#']) = true) := by
    rw [hempty, hnc]
    decide
  refine ⟨?_, ?_, ?_⟩
  · intro hcolon
    simp only [loadLines]
    rw [if_neg hA, if_pos hcolon]
  · intro k c hcolon hsplit
    have hB : ¬(strEndsWithChar (trimStr line) ':' = true) := by
      rw [hcolon]
      decide
    simp only [loadLines]
    rw [if_neg hA, if_neg hB,
      if_neg (by decide : ¬(("test".data : Str) = "build".data)), if_pos trivial, hsplit]
  · intro hcolon hsplit
    have hB : ¬(strEndsWithChar (trimStr line) ':' = true) := by
      rw [hcolon]
      decide
    simp only [loadLines]
    rw [if_neg hA, if_neg hB,
      if_neg (by decide : ¬(("test".data : Str) = "build".data)), if_pos trivial, hsplit]

/-- C8 witness: the line `"a: echo hi"` inside the `test` section yields the
entry `("a", "echo hi")`. -/
theorem c8_witness :
    trimStr "a: echo hi".data ≠ [] ∧
    strStartsWith (trimStr "a: echo hi".data) ['#'] = false ∧
    strEndsWithChar (trimStr "a: echo hi".data) ':' = false ∧
    splitOnce ':' (trimStr "a: echo hi".data) = some ("a".data, " echo hi".data) ∧
    loadLines "test".data ["a: echo hi".data] =
      ((loadLines "test".data []).1,
       (trimStr "a".data, trimStr " echo hi".data) :: (loadLines "test".data []).2) :=
  ⟨by decide, by decide, by decide, by decide,
   (c8_manifest_parsing_amended "test".data "a: echo hi".data [] (by decide)
     (by decide)).2.1 "a".data " echo hi".data (by decide) (by decide)⟩

/-! ## Claim C2 -/

theorem checksOf_length_le (evs : List CommandData) : (checksOf evs).length ≤ evs.length := by
  induction evs with
  | nil => simp [checksOf]
  | cons e r ih => cases e <;> simp [checksOf] <;> omega

theorem runLoopF_success_of_all_eq (maxB : Nat) :
    ∀ fuel (st : List (List CommandData × List Str)) k (cs : List Str),
      (∀ p ∈ st, checksOf p.1 = cs) →
      ∀ r, runLoopF maxB fuel st k = some r → r = .success := by
  intro fuel
  induction fuel with
  | zero =>
    intro st k cs h r hr
    cases hr
  | succ f ih =>
    intro st k cs h r hr
    have hlc : ∀ x ∈ List.map Prod.snd (List.map (roundOne maxB) st), x = cs.head? := by
      intro x hx
      rw [List.mem_map] at hx
      obtain ⟨q, hq, rfl⟩ := hx
      rw [List.mem_map] at hq
      obtain ⟨p, hp, rfl⟩ := hq
      rw [roundOne_snd, drain_fst, h p hp]
    have hm := mismatch_eq_false_of_all_eq _ _ hlc
    have hinv : ∀ p ∈ List.map Prod.fst (List.map (roundOne maxB) st),
        checksOf p.1 = cs.tail := by
      intro p hp
      rw [List.mem_map] at hp
      obtain ⟨q, hq, rfl⟩ := hp
      rw [List.mem_map] at hq
      obtain ⟨p0, hp0, rfl⟩ := hq
      rw [roundOne_fst_fst, checksOf_drain_rem, h p0 hp0]
    simp only [runLoopF] at hr
    rw [if_neg (by rw [hm]; decide)] at hr
    by_cases hs : (st.any fun p => !p.1.isEmpty) = true
    · rw [if_pos hs] at hr
      exact ih _ _ cs.tail hinv r hr
    · rw [if_neg hs] at hr
      exact (Option.some_inj.mp hr).symm

/-- C2: if every process emits the same checkpoint sequence — no matter how
many breadcrumbs are interleaved, and (timing being irrelevant to the
blocking-receive round structure) no matter the interleaving — the run never
declares a mismatch and completes with success. -/
theorem c2_identical_sequences_success (maxB : Nat) (procs : List (List CommandData))
    (cs : List Str) (h : ∀ evs ∈ procs, checksOf evs = cs) :
    runTest maxB procs = .success := by
  have hspec := runTest_spec maxB procs (totalEvents (initState procs) + 1) (by omega)
  apply runLoopF_success_of_all_eq maxB (totalEvents (initState procs) + 1)
    (initState procs) 1 cs _ _ hspec
  intro p hp
  rw [initState, List.mem_map] at hp
  obtain ⟨evs, hevs, rfl⟩ := hp
  exact h evs hevs

/-- C2 witness: three processes emitting the checkpoints `x, y` with
different breadcrumb interleavings complete with success. -/
theorem c2_witness :
    (∀ evs ∈ [[CommandData.Check "RUNTIME CHECK: x".data,
               CommandData.Breadcumb "BREADCUMB: 1".data,
               CommandData.Check "RUNTIME CHECK: y".data],
              [CommandData.Breadcumb "BREADCUMB: 2".data,
               CommandData.Check "RUNTIME CHECK: x".data,
               CommandData.Check "RUNTIME CHECK: y".data,
               CommandData.Breadcumb "BREADCUMB: 3".data],
              [CommandData.Check "RUNTIME CHECK: x".data,
               CommandData.Check "RUNTIME CHECK: y".data]],
      checksOf evs = ["RUNTIME CHECK: x".data, "RUNTIME CHECK: y".data]) ∧
    runTest 32 [[CommandData.Check "RUNTIME CHECK: x".data,
               CommandData.Breadcumb "BREADCUMB: 1".data,
               CommandData.Check "RUNTIME CHECK: y".data],
              [CommandData.Breadcumb "BREADCUMB: 2".data,
               CommandData.Check "RUNTIME CHECK: x".data,
               CommandData.Check "RUNTIME CHECK: y".data,
               CommandData.Breadcumb "BREADCUMB: 3".data],
              [CommandData.Check "RUNTIME CHECK: x".data,
               CommandData.Check "RUNTIME CHECK: y".data]] = .success :=
  ⟨by decide,
   c2_identical_sequences_success 32 _
     ["RUNTIME CHECK: x".data, "RUNTIME CHECK: y".data] (by decide)⟩

/-! ## Claim C1 -/

theorem runLoopF_two_procs_diverge (maxB : Nat) :
    ∀ (pre : List Str) fuel (evs1 evs2 : List CommandData) (t1 t2 : List Str)
      (k : Nat) (a b : Str),
      a ≠ b →
      checksOf evs1 = pre ++ [a] →
      checksOf evs2 = pre ++ [b] →
      pre.length < fuel →
      ∃ ts, runLoopF maxB fuel [(evs1, t1), (evs2, t2)] k =
        some (.mismatchAt (k + pre.length) ts) := by
  intro pre
  induction pre with
  | nil =>
    intro fuel evs1 evs2 t1 t2 k a b hab h1 h2 hf
    cases fuel with
    | zero => omega
    | succ f =>
      have hl1 : (roundOne maxB (evs1, t1)).2 = some a := by
        rw [roundOne_snd, drain_fst, h1]
        rfl
      have hl2 : (roundOne maxB (evs2, t2)).2 = some b := by
        rw [roundOne_snd, drain_fst, h2]
        rfl
      have hm : mismatch (List.map Prod.snd
          (List.map (roundOne maxB) [(evs1, t1), (evs2, t2)])) = true := by
        simp only [List.map_cons, List.map_nil]
        rw [hl1, hl2]
        exact mismatch_pair_ne a b hab
      simp only [runLoopF]
      rw [if_pos hm]
      exact ⟨_, rfl⟩
  | cons v pre ih =>
    intro fuel evs1 evs2 t1 t2 k a b hab h1 h2 hf
    cases fuel with
    | zero => simp at hf
    | succ f =>
      have hl1 : (roundOne maxB (evs1, t1)).2 = some v := by
        rw [roundOne_snd, drain_fst, h1]
        rfl
      have hl2 : (roundOne maxB (evs2, t2)).2 = some v := by
        rw [roundOne_snd, drain_fst, h2]
        rfl
      have hm : mismatch (List.map Prod.snd
          (List.map (roundOne maxB) [(evs1, t1), (evs2, t2)])) = false := by
        simp only [List.map_cons, List.map_nil]
        rw [hl1, hl2]
        exact mismatch_pair_same v
      have he1 : evs1 ≠ [] := checksOf_ne_nil _ (by rw [h1]; simp)
      have hs : ([(evs1, t1), (evs2, t2)].any fun p => !p.1.isEmpty) = true := by
        simp [he1]
      have hc1 : checksOf (roundOne maxB (evs1, t1)).1.1 = pre ++ [a] := by
        rw [roundOne_fst_fst, checksOf_drain_rem, h1]
        rfl
      have hc2 : checksOf (roundOne maxB (evs2, t2)).1.1 = pre ++ [b] := by
        rw [roundOne_fst_fst, checksOf_drain_rem, h2]
        rfl
      obtain ⟨ts, hts⟩ := ih f (roundOne maxB (evs1, t1)).1.1 (roundOne maxB (evs2, t2)).1.1
        (roundOne maxB (evs1, t1)).1.2 (roundOne maxB (evs2, t2)).1.2 (k + 1) a b hab hc1 hc2
        (by simp only [List.length_cons] at hf; omega)
      refine ⟨ts, ?_⟩
      simp only [runLoopF]
      rw [if_neg (by rw [hm]; decide), if_pos hs]
      have hidx : k + (v :: pre).length = (k + 1) + pre.length := by
        simp only [List.length_cons]
        omega
      rw [hidx]
      simp only [List.map_cons, List.map_nil]
      exact hts

/-- C1: with two processes whose checkpoint sequences are `[a, a, a]` and
`[a, a, b]` (`a ≠ b`), with arbitrarily many breadcrumbs interleaved (and
plain lines never entering the channels at all), the comparator declares the
mismatch in exactly round 3 — the Nth checkpoint of one process is compared
only against the Nth checkpoint of the other. -/
theorem c1_positional_third_round (maxB : Nat) (evs1 evs2 : List CommandData) (a b : Str)
    (hab : a ≠ b)
    (h1 : checksOf evs1 = [a, a, a])
    (h2 : checksOf evs2 = [a, a, b]) :
    RunResult.roundOf (runTest maxB [evs1, evs2]) = some 3 := by
  have htot : totalEvents (initState [evs1, evs2]) = evs1.length + evs2.length := by
    simp [totalEvents, initState]
  have hlen1 : (3 : Nat) ≤ evs1.length := by
    have := checksOf_length_le evs1
    rw [h1] at this
    simpa using this
  have hspec := runTest_spec maxB [evs1, evs2] (totalEvents (initState [evs1, evs2]) + 1)
    (by omega)
  obtain ⟨ts, hts⟩ := runLoopF_two_procs_diverge maxB [a, a]
    (totalEvents (initState [evs1, evs2]) + 1) evs1 evs2 [] [] 1 a b hab
    (by rw [h1]; rfl) (by rw [h2]; rfl)
    (by simp only [List.length_cons, List.length_nil]; omega)
  have heq : some (runTest maxB [evs1, evs2]) =
      some (RunResult.mismatchAt (1 + ([a, a] : List Str).length) ts) := hspec.symm.trans hts
  rw [Option.some_inj.mp heq]
  rfl

/-- C1 witness: the concrete interleavings diverge in round 3. -/
theorem c1_witness :
    ("RUNTIME CHECK: a".data : Str) ≠ "RUNTIME CHECK: b".data ∧
    checksOf [CommandData.Check "RUNTIME CHECK: a".data,
              CommandData.Breadcumb "BREADCUMB: p".data,
              CommandData.Check "RUNTIME CHECK: a".data,
              CommandData.Check "RUNTIME CHECK: a".data] =
      ["RUNTIME CHECK: a".data, "RUNTIME CHECK: a".data, "RUNTIME CHECK: a".data] ∧
    checksOf [CommandData.Breadcumb "BREADCUMB: q".data,
              CommandData.Check "RUNTIME CHECK: a".data,
              CommandData.Check "RUNTIME CHECK: a".data,
              CommandData.Breadcumb "BREADCUMB: r".data,
              CommandData.Check "RUNTIME CHECK: b".data] =
      ["RUNTIME CHECK: a".data, "RUNTIME CHECK: a".data, "RUNTIME CHECK: b".data] ∧
    RunResult.roundOf (runTest 32
      [[CommandData.Check "RUNTIME CHECK: a".data,
        CommandData.Breadcumb "BREADCUMB: p".data,
        CommandData.Check "RUNTIME CHECK: a".data,
        CommandData.Check "RUNTIME CHECK: a".data],
       [CommandData.Breadcumb "BREADCUMB: q".data,
        CommandData.Check "RUNTIME CHECK: a".data,
        CommandData.Check "RUNTIME CHECK: a".data,
        CommandData.Breadcumb "BREADCUMB: r".data,
        CommandData.Check "RUNTIME CHECK: b".data]]) = some 3 :=
  ⟨by decide, by decide, by decide,
   c1_positional_third_round 32 _ _ "RUNTIME CHECK: a".data "RUNTIME CHECK: b".data
     (by decide) (by decide) (by decide)⟩

/-! ## Claim C5 -/

theorem runLoopF_all_empty (maxB : Nat) (fuel : Nat)
    (st : List (List CommandData × List Str)) (k : Nat)
    (h : ∀ p ∈ st, p.1 = []) (hf : 0 < fuel) :
    runLoopF maxB fuel st k = some .success := by
  cases fuel with
  | zero => omega
  | succ f =>
    have hm : mismatch (List.map Prod.snd (List.map (roundOne maxB) st)) = false := by
      apply mismatch_eq_false_of_all_eq _ none
      intro x hx
      rw [List.mem_map] at hx
      obtain ⟨q, hq, rfl⟩ := hx
      rw [List.mem_map] at hq
      obtain ⟨p, hp, rfl⟩ := hq
      rw [roundOne_snd, drain_fst, h p hp]
      rfl
    have hs : (st.any fun p => !p.1.isEmpty) = false := by
      rw [List.any_eq_false]
      intro p hp
      rw [h p hp]
      decide
    simp only [runLoopF]
    rw [if_neg (by rw [hm]; decide), if_neg (by rw [hs]; decide)]

theorem runLoopF_insert_no_check (maxB : Nat) :
    ∀ fuel fuel2 (st : List (List CommandData × List Str)) (i : Nat)
      (evs0 : List CommandData) (t0 : List Str) (k : Nat),
      checksOf evs0 = [] → i ≤ st.length →
      totalEvents st < fuel → totalEvents (st.insertIdx i (evs0, t0)) < fuel2 →
      (runLoopF maxB fuel2 (st.insertIdx i (evs0, t0)) k).map RunResult.roundOf =
        (runLoopF maxB fuel st k).map RunResult.roundOf := by
  intro fuel
  induction fuel with
  | zero =>
    intro fuel2 st i evs0 t0 k h0 hi hf hf2
    omega
  | succ f ih =>
    intro fuel2 st i evs0 t0 k h0 hi hf hf2
    cases fuel2 with
    | zero => omega
    | succ f2 =>
      have hrzero : (roundOne maxB (evs0, t0)).2 = none := by
        rw [roundOne_snd, drain_fst, h0]
        rfl
      have hrempty : (roundOne maxB (evs0, t0)).1.1 = [] := by
        rw [roundOne_fst_fst]
        exact drain_rem_of_checksOf_nil evs0 h0
      have hmapins : List.map (roundOne maxB) (st.insertIdx i (evs0, t0)) =
          (List.map (roundOne maxB) st).insertIdx i (roundOne maxB (evs0, t0)) :=
        map_insertIdx _ i _ st
      have hsnd : List.map Prod.snd (List.map (roundOne maxB) (st.insertIdx i (evs0, t0))) =
          (List.map Prod.snd (List.map (roundOne maxB) st)).insertIdx i none := by
        rw [hmapins, map_insertIdx, hrzero]
      have hfst : List.map Prod.fst (List.map (roundOne maxB) (st.insertIdx i (evs0, t0))) =
          (List.map Prod.fst (List.map (roundOne maxB) st)).insertIdx i
            ((roundOne maxB (evs0, t0)).1) := by
        rw [hmapins, map_insertIdx]
      have hmm : mismatch (List.map Prod.snd
            (List.map (roundOne maxB) (st.insertIdx i (evs0, t0)))) =
          mismatch (List.map Prod.snd (List.map (roundOne maxB) st)) := by
        rw [hsnd, mismatch_insertIdx_none]
      have hany : ((st.insertIdx i (evs0, t0)).any fun p => !p.1.isEmpty) =
          ((!evs0.isEmpty) || st.any fun p => !p.1.isEmpty) :=
        any_insertIdx _ i _ st hi
      have hins_tot : totalEvents (st.insertIdx i (evs0, t0)) =
          evs0.length + totalEvents st := by
        unfold totalEvents
        rw [map_insertIdx, sum_insertIdx _ _ _ (by simpa using hi)]
      have hlen' : i ≤ (List.map Prod.fst (List.map (roundOne maxB) st)).length := by
        simpa using hi
      simp only [runLoopF]
      by_cases hm : mismatch (List.map Prod.snd (List.map (roundOne maxB) st)) = true
      · rw [if_pos (by rw [hmm]; exact hm), if_pos hm]
        rfl
      · rw [if_neg (by rw [hmm]; exact hm), if_neg hm]
        by_cases hs : (st.any fun p => !p.1.isEmpty) = true
        · rw [if_pos (by rw [hany, hs, Bool.or_true]), if_pos hs]
          rw [hfst]
          have hlt := totalEvents_round_lt maxB st hs
          have htins : totalEvents
              ((List.map Prod.fst (List.map (roundOne maxB) st)).insertIdx i
                ((roundOne maxB (evs0, t0)).1)) < f2 := by
            have hte : totalEvents
                ((List.map Prod.fst (List.map (roundOne maxB) st)).insertIdx i
                  ((roundOne maxB (evs0, t0)).1)) =
                (roundOne maxB (evs0, t0)).1.1.length +
                totalEvents (List.map Prod.fst (List.map (roundOne maxB) st)) := by
              unfold totalEvents
              rw [map_insertIdx, sum_insertIdx _ _ _ (by simpa using hlen')]
            rw [hte, hrempty]
            simp only [List.length_nil]
            omega
          exact ih f2 _ i (roundOne maxB (evs0, t0)).1.1 (roundOne maxB (evs0, t0)).1.2
            (k + 1) (by rw [hrempty]; rfl) hlen' (by omega) htins
        · rw [if_neg hs]
          have hsf : (st.any fun p => !p.1.isEmpty) = false := by
            rwa [Bool.not_eq_true] at hs
          by_cases h0e : evs0.isEmpty = true
          · rw [if_neg (by rw [hany, h0e, hsf]; decide)]
          · have h0f : evs0.isEmpty = false := by
              rwa [Bool.not_eq_true] at h0e
            have h0ne : evs0 ≠ [] := by
              cases evs0 with
              | nil => cases h0f
              | cons e r => simp
            rw [if_pos (by rw [hany, h0f, hsf]; decide)]
            rw [hfst]
            have hemp : ∀ p ∈ (List.map Prod.fst (List.map (roundOne maxB) st)).insertIdx i
                ((roundOne maxB (evs0, t0)).1), p.1 = [] := by
              intro p hp
              rcases (List.mem_insertIdx hlen').mp hp with heq | hp'
              · rw [heq]
                exact hrempty
              · rw [List.mem_map] at hp'
                obtain ⟨q, hq, rfl⟩ := hp'
                rw [List.mem_map] at hq
                obtain ⟨p0, hp0, rfl⟩ := hq
                have hp0e : p0.1 = [] := by
                  have := List.any_eq_false.mp hsf p0 hp0
                  cases hc : p0.1 with
                  | nil => rfl
                  | cons e r =>
                    rw [hc] at this
                    simp at this
                rw [roundOne_fst_fst, hp0e]
                rfl
            have hlenpos : 1 ≤ evs0.length := by
              cases evs0 with
              | nil => exact absurd rfl h0ne
              | cons e r => simp
            rw [runLoopF_all_empty maxB f2 _ (k + 1) hemp (by omega)]

/-- C5: a process that emits zero checkpoints (breadcrumbs only, then its
channel closes) never by itself causes a mismatch: inserting such a process
anywhere leaves the run's verdict — mismatch round or success — unchanged;
moreover it records no checkpoint in its first round and its channel is fully
consumed by it, so it contributes no checkpoint in any later round either. -/
theorem c5_no_checkpoint_process_harmless (maxB : Nat) (procs : List (List CommandData))
    (i : Nat) (evs0 : List CommandData)
    (h0 : checksOf evs0 = []) (hi : i ≤ procs.length) :
    RunResult.roundOf (runTest maxB (procs.insertIdx i evs0)) =
      RunResult.roundOf (runTest maxB procs) ∧
    (drain evs0).1 = none ∧ (drain evs0).2.1 = [] := by
  refine ⟨?_, by rw [drain_fst, h0]; rfl, drain_rem_of_checksOf_nil evs0 h0⟩
  have hini : initState (procs.insertIdx i evs0) = (initState procs).insertIdx i (evs0, []) := by
    unfold initState
    rw [map_insertIdx]
  have h1 := runTest_spec maxB (procs.insertIdx i evs0)
    (totalEvents (initState (procs.insertIdx i evs0)) + 1) (by omega)
  have h2 := runTest_spec maxB procs (totalEvents (initState procs) + 1) (by omega)
  have hsim := runLoopF_insert_no_check maxB (totalEvents (initState procs) + 1)
    (totalEvents (initState (procs.insertIdx i evs0)) + 1) (initState procs) i evs0 [] 1
    h0 (by simpa [initState] using hi) (by omega) (by rw [← hini]; omega)
  rw [← hini, h1, h2] at hsim
  simpa using hsim

/-- C5 witness: inserting a breadcrumbs-only process in front of a single
checkpointing process leaves the verdict unchanged. -/
theorem c5_witness :
    checksOf [CommandData.Breadcumb "BREADCUMB: only".data] = [] ∧
    (0 : Nat) ≤ ([[CommandData.Check "RUNTIME CHECK: 1".data]] :
      List (List CommandData)).length ∧
    (RunResult.roundOf (runTest 32 ([[CommandData.Check "RUNTIME CHECK: 1".data]].insertIdx 0
        [CommandData.Breadcumb "BREADCUMB: only".data])) =
      RunResult.roundOf (runTest 32 [[CommandData.Check "RUNTIME CHECK: 1".data]]) ∧
     (drain [CommandData.Breadcumb "BREADCUMB: only".data]).1 = none ∧
     (drain [CommandData.Breadcumb "BREADCUMB: only".data]).2.1 = []) :=
  ⟨by decide, by decide,
   c5_no_checkpoint_process_harmless 32 [[CommandData.Check "RUNTIME CHECK: 1".data]] 0
     [CommandData.Breadcumb "BREADCUMB: only".data] (by decide) (by decide)⟩

end RuntimeDiff
